import Mathlib

/-!
Verification of `klippy/extras/angle.py` (magnetic angle sensor support).

The Python source is shallowly embedded: Python unbounded integers become
`Int`/`Nat` (Python `x & 0xffff` on an arbitrary int is `x % 65536` with
Euclidean mod, `x >> k` is floor division by `2^k`, which for a positive
divisor agrees with Lean's `Int` division), Python floats become `ℚ`
(every arithmetic operation the relevant code paths perform is exact at
the granularity the claims mention), and external collaborators (numpy's
least-squares solver, the SPI transport, the MCU clock conversion) become
explicit function parameters.
-/

/-- Python `int(x)` on a float: truncation toward zero. -/
def pyInt (x : ℚ) : Int := if 0 ≤ x then ⌊x⌋ else ⌈x⌉

/-- Python `round(x, 6)`: round to 6 decimal places, ties to even. -/
def pyRound6 (x : ℚ) : ℚ :=
  let y := x * 1000000
  let n := ⌊y⌋
  let v := if y - n < 1/2 then n
           else if (1/2 : ℚ) < y - n then n + 1
           else if n % 2 = 0 then n else n + 1
  (v : ℚ) / 1000000

/-- Python `a % m` on floats (`m > 0`): `a - m * floor(a / m)`. -/
def pyMod (a m : ℚ) : ℚ := a - m * ⌊a / m⌋

/-!
## `AngleCalibration.apply_calibration` (angle.py lines 72-97)

`apply_cal_angle` is the body of the per-sample loop (lines 80-92):
`interp_bits = ANGLE_BITS - CALIBRATION_BITS = 10`, `interp_mask = 0x3ff`,
`interp_round = 0x200`.  `angle & 0xffff` is `angle % 65536`,
`angle & 0x3ff` is `angle % 1024`, and `>> 10` is floor division by 1024.
-/

def apply_cal_angle (calibration : List Int) (calibration_reversed : Bool)
    (angle : Int) : Int :=
  let bucket : Nat := ((angle % 65536) / 1024).toNat
  let cal1 := calibration.getD bucket 0
  let cal2 := calibration.getD (bucket + 1) 0
  let adj0 := (angle % 1024) * (cal2 - cal1)
  let adj := cal1 + (adj0 + 512) / 1024
  let angle_diff0 := (angle - adj) % 65536
  let angle_diff := if 32768 ≤ angle_diff0 then angle_diff0 - 65536 else angle_diff0
  let new_angle := angle - angle_diff
  if calibration_reversed then -new_angle else new_angle

/-- `AngleCalibration.apply_calibration` (lines 72-97).  The sample batch is
corrected in place; the phase-offset logic of lines 93-97 delegates to the
external collaborators `calc_mcu_pos_offset` (which reads the TMC driver and
the stepper's move queue) and `mcu_to_commanded_position`, supplied here as
parameters.  The source indexes `samples[0]`; the caller (`_api_update`,
lines 458-461) only calls with a non-empty batch, and on an empty batch the
model returns `none` where the source would raise. -/
def apply_calibration {α : Type} (calibration : List Int)
    (calibration_reversed : Bool) (mcu_pos_offset : Option ℚ)
    (calc_mcu_pos_offset : α × Int → Option ℚ) (mcu_to_commanded : ℚ → ℚ)
    (samples : List (α × Int)) : Option ℚ × List (α × Int) :=
  if calibration.isEmpty then (none, samples)
  else
    let corrected := samples.map fun s =>
      (s.1, apply_cal_angle calibration calibration_reversed s.2)
    let offset :=
      match mcu_pos_offset with
      | some off => some (mcu_to_commanded off)
      | none =>
        match corrected with
        | [] => none
        | s0 :: _ =>
          match calc_mcu_pos_offset s0 with
          | none => none
          | some off => some (mcu_to_commanded off)
    (offset, corrected)

/-- The identity calibration table of S4 / law 4: `C[k] = k * (2^16/64)`
for `k = 0..64`.  It has 65 entries and satisfies `C[64] = C[0] + 2^16`. -/
def identCal : List Int := (List.range 65).map fun k => ((1024 * k : Nat) : Int)

theorem identCal_getD (n : Nat) (h : n < 65) :
    identCal.getD n 0 = ((1024 * n : Nat) : Int) := by
  rw [identCal, List.getD_eq_getElem?_getD, List.getElem?_map, List.getElem?_range h]
  rfl

/-- C1: counterexample.  With the identity table (65 entries, cyclic) and
`reversed = true`, shifting the input angle up by `2^16` shifts the output
down by `2^16`, not up: the claim fails at `angle = 0`. -/
theorem apply_calibration_shift_reversed_cex :
    identCal.length = 65 ∧ identCal.getD 64 0 = identCal.getD 0 0 + 65536 ∧
    apply_cal_angle identCal true (0 + 65536) ≠ apply_cal_angle identCal true 0 + 65536 := by
  refine ⟨by decide, by decide, by decide⟩

/-- C1 (amended): for every calibration table and every unwrapped angle,
shifting the input by `2^16` shifts `apply_calibration`'s output by `2^16`
when `reversed = false` and by `-2^16` when `reversed = true`. -/
theorem apply_calibration_shift (calibration : List Int)
    (calibration_reversed : Bool) (angle : Int) :
    apply_cal_angle calibration calibration_reversed (angle + 65536) =
      apply_cal_angle calibration calibration_reversed angle +
        (if calibration_reversed then -65536 else 65536) := by
  simp only [apply_cal_angle]
  have h1 : (angle + 65536) % 65536 = angle % 65536 := by omega
  have h2 : (angle + 65536) % 1024 = angle % 1024 := by omega
  rw [h1, h2]
  generalize calibration.getD (((angle % 65536) / 1024).toNat) 0 = c1
  generalize calibration.getD (((angle % 65536) / 1024).toNat + 1) 0 = c2
  have h3 : (angle + 65536 - (c1 + ((angle % 1024) * (c2 - c1) + 512) / 1024)) % 65536 =
      (angle - (c1 + ((angle % 1024) * (c2 - c1) + 512) / 1024)) % 65536 := by omega
  rw [h3]
  cases calibration_reversed <;> simp <;> split <;> omega

/-- C7: with the identity table and `reversed = false`, `apply_calibration`
is the identity: every angle maps to itself, and every `(time, angle)` batch
is returned unchanged, for every unwrapped angle value. -/
theorem calibration_identity :
    (∀ angle : Int, apply_cal_angle identCal false angle = angle) ∧
    (∀ (mcu_pos_offset : Option ℚ) (calcOff : ℚ × Int → Option ℚ) (m2c : ℚ → ℚ)
       (samples : List (ℚ × Int)),
      (apply_calibration identCal false mcu_pos_offset calcOff m2c samples).2 = samples) := by
  have key : ∀ angle : Int, apply_cal_angle identCal false angle = angle := by
    intro angle
    simp only [apply_cal_angle]
    have hb : ((angle % 65536) / 1024).toNat < 64 := by omega
    rw [identCal_getD _ (by omega), identCal_getD _ (by omega)]
    have hc : (((angle % 65536) / 1024).toNat : Int) = (angle % 65536) / 1024 := by omega
    push_cast
    rw [hc]
    split <;> omega
  refine ⟨key, ?_⟩
  intro off calcOff m2c samples
  have hmap : ∀ l : List (ℚ × Int),
      (l.map fun s => (s.1, apply_cal_angle identCal false s.2)) = l := by
    intro l
    induction l with
    | nil => rfl
    | cons a t ih => simp [key, ih]
  simp only [apply_calibration]
  rw [if_neg (by decide)]
  exact hmap samples

/-- C10: with no calibration table loaded, `apply_calibration` returns no
position offset and leaves the batch untouched; the seeding callback is
never consulted (the result does not depend on it). -/
theorem apply_calibration_empty (calibration_reversed : Bool)
    (mcu_pos_offset : Option ℚ) (calcOff : ℚ × Int → Option ℚ) (m2c : ℚ → ℚ)
    (samples : List (ℚ × Int)) :
    apply_calibration [] calibration_reversed mcu_pos_offset calcOff m2c samples =
      (none, samples) := by
  rfl

/-!
## `AngleCalibration.load_calibration` (angle.py lines 98-129)

`numpy.linalg.lstsq` is an external numeric backend; it is supplied as the
parameter `lstsq`, receiving the `full_steps × 64` coefficient matrix `eqs`
(as a list of rows) and the target vector `ans` exactly as the source
builds them.  Python `index(min(...))` is the first index of the least
element, `& 3` on a non-negative int is `% 4`, `int(angle + .5)` truncates
toward zero, and `int(int_angle / bucket_size)` on a non-negative int is
floor division by 1024.
-/

/-- `int(s + .5)` of line 128. -/
def pyIntRound (s : ℚ) : Int := pyInt (s + 1/2)

def load_calibration (angles0 : List ℚ)
    (lstsq : List (List ℚ) → List ℚ → List ℚ) : ℚ × Bool × List Int :=
  let full_steps := angles0.length
  let nominal_step : ℚ := 65536 / (full_steps : ℚ)
  let angle_phase_offset : ℚ :=
    ((angles0.indexOf (angles0.min?.getD 0) % 4 : Nat) : ℚ) * nominal_step
  let calibration_reversed :=
    decide (angles0.getD (full_steps - 2) 0 > angles0.getD (full_steps - 1) 0)
  let angles1 := if calibration_reversed then angles0.reverse else angles0
  let first_step := angles1.indexOf (angles1.min?.getD 0)
  let angles := angles1.drop first_step ++ angles1.take first_step
  let eqans := angles.enum.map fun p =>
    let step := p.1
    let angle := p.2
    let int_angle := (pyInt (angle + 1/2)) % 65536
    let bucket := (int_angle / 1024).toNat
    let bucket_start := bucket * 1024
    let ang_diff := angle - (bucket_start : ℚ)
    let ang_diff_per := ang_diff / 1024
    let eq := (List.range 64).map fun j =>
      if j = bucket then 1 - ang_diff_per
      else if j = (bucket + 1) % 64 then ang_diff_per
      else 0
    let a : ℚ := (step : ℚ) * nominal_step -
      (if 64 ≤ bucket + 1 then ang_diff_per * 65536 else 0)
    (eq, a)
  let sol := lstsq (eqans.map Prod.fst) (eqans.map Prod.snd)
  let isol := sol.map pyIntRound
  (angle_phase_offset, calibration_reversed, isol ++ [isol.getD 0 0 + 65536])

/-- C8: for every accepted list of measured step angles (at least two
entries) and every least-squares backend that returns one coefficient per
calibration bucket (numpy's `lstsq` on a 64-column system returns 64
coefficients), the stored table has exactly 65 entries and satisfies the
cyclic invariant `C[64] = C[0] + 2^16`. -/
theorem load_calibration_cyclic (angles : List ℚ)
    (lstsq : List (List ℚ) → List ℚ → List ℚ)
    (hlen : 2 ≤ angles.length)
    (hsol : ∀ A b, (lstsq A b).length = 64) :
    ((load_calibration angles lstsq).2.2).length = 65 ∧
    ((load_calibration angles lstsq).2.2).getD 64 0 =
      ((load_calibration angles lstsq).2.2).getD 0 0 + 65536 := by
  simp only [load_calibration]
  generalize hA : (List.map Prod.fst _) = A
  generalize hb : (List.map Prod.snd _) = b
  have hiso : ((lstsq A b).map pyIntRound).length = 64 := by
    rw [List.length_map, hsol]
  constructor
  · rw [List.length_append, hiso]
    rfl
  · rw [List.getD_append_right _ _ _ _ (by rw [hiso]),
        List.getD_append _ _ _ _ (by rw [hiso]; norm_num), hiso]
    rfl

/-!
## `AngleCalibration.cmd_ANGLE_CALIBRATE` (angle.py lines 221-259)

The physical capture (`do_calibration_moves`, lines 156-209: stepper moves,
sample-window correlation, and the "incomplete sensor data" check) talks to
the toolhead and the sensor; its outcome is the model's input: either an
error, or the per-full-step sample lists `fcal`/`rcal` it returns on
success (each of length `full_steps`).  The command body is modelled
exactly: the active table is cleared for the duration of the moves and
restored in a `finally` block, so the in-memory table after the command is
always the old one; on success the command only persists the reordered
angle list through `configfile.set` (modelled as the `Except.ok` payload;
the `"%.1f"` decimal formatting of lines 250-256 is elided).  The standard
deviation computed by `calc_angles` feeds only the informational message of
lines 239-240 and is omitted; the per-step means are modelled. -/

/-- Per-step averages of `calc_angles` (lines 210-219). -/
def calc_angles_means (meas : List (List ℚ)) : List ℚ :=
  meas.map fun data => data.sum / (data.length : ℚ)

/-- The merged per-step means reduced `% 0xffff` (lines 237-242).  Note the
source reduces modulo `0xffff = 65535`, not `0x10000`. -/
def calibrate_angles (fcal rcal : List (List ℚ)) (full_steps : Nat) : List ℚ :=
  calc_angles_means ((List.range full_steps).map fun i => fcal.getD i [] ++ rcal.getD i [])

def calibrate_anglist (fcal rcal : List (List ℚ)) (full_steps : Nat) : List ℚ :=
  (calibrate_angles fcal rcal full_steps).map fun a => pyMod a 65535

/-- Lines 243-247: the extreme magnet position (`max` when the first two
step means decrease, else `min`), its first index, masked with `~3`. -/
def calibrate_first_ang (fcal rcal : List (List ℚ)) (full_steps : Nat) : ℚ :=
  let angles := calibrate_angles fcal rcal full_steps
  let anglist := calibrate_anglist fcal rcal full_steps
  if angles.getD 0 0 > angles.getD 1 0 then anglist.max?.getD 0 else anglist.min?.getD 0

def calibrate_first_phase (fcal rcal : List (List ℚ)) (full_steps : Nat) : Nat :=
  let anglist := calibrate_anglist fcal rcal full_steps
  anglist.indexOf (calibrate_first_ang fcal rcal full_steps) / 4 * 4

/-- `cmd_ANGLE_CALIBRATE` (lines 221-259).  Returns the in-memory
calibration table after the command together with either the persisted
(reordered) `calibrate=` list or the fatal error. -/
def cmd_ANGLE_CALIBRATE (old_calibration : List Int) (full_steps : Nat)
    (moves : Except String (List (List ℚ) × List (List ℚ))) :
    List Int × Except String (List ℚ) :=
  match moves with
  | .error e => (old_calibration, .error e)
  | .ok (fcal, rcal) =>
    let fangles := calc_angles_means fcal
    let rangles := calc_angles_means rcal
    if fangles.dedup.length ≠ fangles.length ∨ rangles.dedup.length ≠ rangles.length then
      (old_calibration, .error "Failed calibration - sensor not updating for each step")
    else
      let anglist := calibrate_anglist fcal rcal full_steps
      let first_phase := calibrate_first_phase fcal rcal full_steps
      (old_calibration, .ok (anglist.drop first_phase ++ anglist.take first_phase))

/-- Length of the pre-rotation angle list is the number of full steps. -/
theorem calibrate_anglist_length (fcal rcal : List (List ℚ)) (full_steps : Nat) :
    (calibrate_anglist fcal rcal full_steps).length = full_steps := by
  simp [calibrate_anglist, calibrate_angles, calc_angles_means]

/-- The extreme angle picked at lines 243-246 occurs in the angle list. -/
theorem calibrate_first_ang_mem (fcal rcal : List (List ℚ)) (full_steps : Nat)
    (hfs : 1 ≤ full_steps) :
    calibrate_first_ang fcal rcal full_steps ∈ calibrate_anglist fcal rcal full_steps := by
  have hne : calibrate_anglist fcal rcal full_steps ≠ [] := by
    intro h
    rw [← List.length_eq_zero] at h
    rw [calibrate_anglist_length] at h
    omega
  rw [calibrate_first_ang]
  split
  · rcases hmax : (calibrate_anglist fcal rcal full_steps).max? with _ | m
    · exact absurd (List.max?_eq_none_iff.mp hmax) hne
    · simpa using List.max?_mem (fun a b => max_choice a b) hmax
  · rcases hmin : (calibrate_anglist fcal rcal full_steps).min? with _ | m
    · exact absurd (List.min?_eq_none_iff.mp hmin) hne
    · simpa using List.min?_mem (fun a b => min_choice a b) hmin

/-- C9: whenever `ANGLE_CALIBRATE` fails with a fatal error (a failure
during the calibration moves or capture, which includes the incomplete-data
and unknown-phase errors, or the sensor-not-updating check), the in-memory
calibration table held before the command is retained unchanged. -/
theorem calibrate_error_retains_table (old_calibration : List Int)
    (full_steps : Nat) (moves : Except String (List (List ℚ) × List (List ℚ)))
    (e : String)
    (herr : (cmd_ANGLE_CALIBRATE old_calibration full_steps moves).2 = .error e) :
    (cmd_ANGLE_CALIBRATE old_calibration full_steps moves).1 = old_calibration := by
  clear herr
  cases moves with
  | error e2 => rfl
  | ok p =>
    obtain ⟨fcal, rcal⟩ := p
    simp only [cmd_ANGLE_CALIBRATE]
    split <;> rfl

/-- Witness for C9 at a concrete failing input. -/
theorem calibrate_error_retains_table_witness :
    (cmd_ANGLE_CALIBRATE identCal 4
      (.error "Failed calibration - incomplete sensor data")).1 = identCal :=
  calibrate_error_retains_table identCal 4
    (.error "Failed calibration - incomplete sensor data")
    "Failed calibration - incomplete sensor data" rfl

/-- C3 (amended): after a successful `ANGLE_CALIBRATE` run (the per-step
means are all distinct, so no fatal error is raised), the in-memory table is
left exactly as it was before the command — the fitted table only takes
effect when the persisted `calibrate=` list is reloaded — and the persisted
list is the measured angle list rotated so that its first entry is the one
at the index of the extreme (lowest or highest) magnet position rounded
down to a 4-step boundary. -/
theorem angle_calibrate_persists (old_calibration : List Int)
    (fcal rcal : List (List ℚ)) (full_steps : Nat) (hfs : 1 ≤ full_steps)
    (hf : (calc_angles_means fcal).dedup.length = (calc_angles_means fcal).length)
    (hr : (calc_angles_means rcal).dedup.length = (calc_angles_means rcal).length) :
    cmd_ANGLE_CALIBRATE old_calibration full_steps (.ok (fcal, rcal)) =
      (old_calibration,
       .ok ((calibrate_anglist fcal rcal full_steps).drop
              (calibrate_first_phase fcal rcal full_steps) ++
            (calibrate_anglist fcal rcal full_steps).take
              (calibrate_first_phase fcal rcal full_steps))) ∧
    calibrate_first_phase fcal rcal full_steps % 4 = 0 ∧
    ((calibrate_anglist fcal rcal full_steps).drop
        (calibrate_first_phase fcal rcal full_steps) ++
     (calibrate_anglist fcal rcal full_steps).take
        (calibrate_first_phase fcal rcal full_steps)).headD 0 =
      (calibrate_anglist fcal rcal full_steps).getD
        (calibrate_first_phase fcal rcal full_steps) 0 ∧
    (calibrate_anglist fcal rcal full_steps).IsRotated
      ((calibrate_anglist fcal rcal full_steps).drop
         (calibrate_first_phase fcal rcal full_steps) ++
       (calibrate_anglist fcal rcal full_steps).take
         (calibrate_first_phase fcal rcal full_steps)) := by
  have hmem := calibrate_first_ang_mem fcal rcal full_steps hfs
  have hidx : (calibrate_anglist fcal rcal full_steps).indexOf
      (calibrate_first_ang fcal rcal full_steps) <
      (calibrate_anglist fcal rcal full_steps).length :=
    List.indexOf_lt_length.mpr hmem
  have hfp : calibrate_first_phase fcal rcal full_steps <
      (calibrate_anglist fcal rcal full_steps).length := by
    rw [calibrate_first_phase]
    omega
  refine ⟨?_, ?_, ?_, ?_⟩
  · simp only [cmd_ANGLE_CALIBRATE]
    rw [if_neg]
    push_neg
    exact ⟨hf, hr⟩
  · rw [calibrate_first_phase]
    exact Nat.mul_mod_left _ 4
  · rw [List.headD_eq_head?_getD, List.head?_append, List.head?_drop,
        List.getD_eq_getElem?_getD]
    rcases hget : (calibrate_anglist fcal rcal full_steps)[calibrate_first_phase fcal rcal full_steps]? with _ | v
    · rw [List.getElem?_eq_none_iff] at hget
      omega
    · rfl
  · exact ⟨calibrate_first_phase fcal rcal full_steps,
      List.rotate_eq_drop_append_take (le_of_lt hfp)⟩

/-- Witness for C8: two measured angles and a backend returning 64 zeros. -/
theorem load_calibration_cyclic_witness :
    ((load_calibration [0, 16384] (fun A b => List.replicate 64 0)).2.2).length = 65 ∧
    ((load_calibration [0, 16384] (fun A b => List.replicate 64 0)).2.2).getD 64 0 =
      ((load_calibration [0, 16384] (fun A b => List.replicate 64 0)).2.2).getD 0 0 + 65536 :=
  load_calibration_cyclic [0, 16384] (fun A b => List.replicate 64 0)
    (by simp) (fun A b => by simp)

/-- Concrete capture data for the calibration command: two full steps, one
sample per step, distinct means. -/
def calF : List (List ℚ) := [[0], [1]]

theorem calF_means_distinct :
    (calc_angles_means calF).dedup.length = (calc_angles_means calF).length := by
  have hm : calc_angles_means calF = [0, 1] := by norm_num [calc_angles_means, calF]
  rw [hm, List.dedup_cons_of_not_mem (by norm_num),
      List.dedup_cons_of_not_mem (by simp), List.dedup_nil]

/-- C3: counterexample.  A successful `ANGLE_CALIBRATE` run started with an
empty in-memory table finishes with the in-memory table still empty: the
command never installs the newly fitted table (every fitted table produced
by `load_calibration` has 65 entries), it only persists the `calibrate=`
list for a later restart. -/
theorem angle_calibrate_no_refit_cex :
    ((cmd_ANGLE_CALIBRATE [] 2 (.ok (calF, calF))).2).isOk = true ∧
    (cmd_ANGLE_CALIBRATE [] 2 (.ok (calF, calF))).1 = [] ∧
    (cmd_ANGLE_CALIBRATE [] 2 (.ok (calF, calF))).1.length ≠ 65 := by
  have h1 : (cmd_ANGLE_CALIBRATE [] 2 (.ok (calF, calF))).1 = [] := by
    simp only [cmd_ANGLE_CALIBRATE]
    split <;> rfl
  refine ⟨?_, h1, ?_⟩
  · simp only [cmd_ANGLE_CALIBRATE]
    rw [if_neg (by push_neg; exact ⟨calF_means_distinct, calF_means_distinct⟩)]
    rfl
  · rw [h1]
    decide

/-- Witness for C3's amended statement at the concrete capture data. -/
theorem angle_calibrate_persists_witness :
    cmd_ANGLE_CALIBRATE identCal 2 (.ok (calF, calF)) =
      (identCal,
       .ok ((calibrate_anglist calF calF 2).drop (calibrate_first_phase calF calF 2) ++
            (calibrate_anglist calF calF 2).take (calibrate_first_phase calF calF 2))) ∧
    calibrate_first_phase calF calF 2 % 4 = 0 ∧
    ((calibrate_anglist calF calF 2).drop (calibrate_first_phase calF calF 2) ++
     (calibrate_anglist calF calF 2).take (calibrate_first_phase calF calF 2)).headD 0 =
      (calibrate_anglist calF calF 2).getD (calibrate_first_phase calF calF 2) 0 ∧
    (calibrate_anglist calF calF 2).IsRotated
      ((calibrate_anglist calF calF 2).drop (calibrate_first_phase calF calF 2) ++
       (calibrate_anglist calF calF 2).take (calibrate_first_phase calF calF 2)) :=
  angle_calibrate_persists identCal calF calF 2 (by norm_num)
    calF_means_distinct calF_means_distinct

/-!
## `Angle._extract_samples` (angle.py lines 331-385)

A `RawMessage` carries a 16-bit sequence number and a byte string of 3-byte
records (`spi_angle_data oid=%c sequence=%hu data=%*s`), so the fields are
typed `Fin 65536` / `Fin 256`.  The per-capture configuration (lines
333-346) is read-only inside the function; only `last_sequence` and
`last_angle` are written back (lines 382-383).  `clock_to_print_time` is the
MCU's clock-to-print-time conversion, an external collaborator.

Python translations: on a non-negative `last_sequence`,
`last_sequence & ~0xffff` is `last_sequence / 65536 * 65536`, and or-ing a
16-bit value into the cleared low bits is addition; on bytes,
`d[i*3+1] | (d[i*3+2] << 8)` is `lo + 256 * hi`.
-/

structure RawMsg where
  sequence : Fin 65536
  data : List (Fin 256)

structure AngleConfig where
  static_delay : ℚ
  sample_ticks : Nat
  start_clock : Nat
  time_shift : Nat
  clock_to_print_time : ℚ → ℚ
  is_tle5012b : Bool
  last_chip_mcu_clock : Nat
  chip_freq : ℚ
  last_chip_clock : Nat

/-- Sequence unwrapping, lines 351-354:
`seq = (last_sequence & ~0xffff) | msg.sequence; if seq < last_sequence:
seq += 0x10000`. -/
def unwrapSeq (last_sequence : Nat) (sequence : Fin 65536) : Nat :=
  let seq := last_sequence / 65536 * 65536 + sequence.val
  if seq < last_sequence then seq + 65536 else seq

/-- Angle unwrapping, lines 363-366: `angle_diff = (last_angle - raw_angle)
& 0xffff; if angle_diff & 0x8000: angle_diff -= 0x10000;
last_angle -= angle_diff`. -/
def unwrapAngle (last_angle : Int) (raw_angle : Nat) : Int :=
  let angle_diff0 := (last_angle - raw_angle) % 65536
  let angle_diff := if 32768 ≤ angle_diff0 then angle_diff0 - 65536 else angle_diff0
  last_angle - angle_diff

/-- Sample clock of one record, lines 368-378.  Mode B (`tle5012b`) treats
`tcode` as the chip frame counter and converts through the chip-clock fit
(lines 368-375, `int(x)` truncating toward zero, `& 0xffff` and the signed
correction as in the angle unwrap); mode A shifts `tcode` by `time_shift`
(line 378). -/
def recordSclock (cfg : AngleConfig) (mclock : Nat) (tcode : Fin 256) : ℚ :=
  if cfg.is_tle5012b then
    let inv_chip_freq : ℚ := if cfg.chip_freq = 0 then 0 else 1 / cfg.chip_freq
    let mdiff : Int := (mclock : Int) - (cfg.last_chip_mcu_clock : Int)
    let chip_mclock : Int := (cfg.last_chip_clock : Int) +
      pyInt ((mdiff : ℚ) * cfg.chip_freq + 1/2)
    let cdiff0 := ((tcode.val : Int) * 1024 - chip_mclock) % 65536
    let cdiff := if 32768 ≤ cdiff0 then cdiff0 - 65536 else cdiff0
    (mclock : ℚ) + ((cdiff : ℚ) - 2048) * inv_chip_freq
  else
    ((mclock + tcode.val * 2 ^ cfg.time_shift : Nat) : ℚ)

/-- The record loop of lines 357-381: walk the data three bytes at a time
(`range(len(d) // 3)` ignores a 1- or 2-byte tail), count `TCODE_ERROR`
records, unwrap the angle, timestamp, and emit `(print_time, angle)`.
Returns the final `last_angle`, the samples in order, and the error count. -/
def extractRecords (cfg : AngleConfig) (msg_mclock : Nat) :
    Nat → Int → List (Fin 256) → Int × List (ℚ × Int) × Nat
  | _, last_angle, [] => (last_angle, [], 0)
  | _, last_angle, [_] => (last_angle, [], 0)
  | _, last_angle, [_, _] => (last_angle, [], 0)
  | i, last_angle, tcode :: lo :: hi :: rest =>
    if tcode.val = 0xff then
      let r := extractRecords cfg msg_mclock (i + 1) last_angle rest
      (r.1, r.2.1, r.2.2 + 1)
    else
      let raw_angle := lo.val + 256 * hi.val
      let la := unwrapAngle last_angle raw_angle
      let mclock := msg_mclock + i * cfg.sample_ticks
      let sclock := recordSclock cfg mclock tcode
      let ptime := pyRound6 (cfg.clock_to_print_time sclock - cfg.static_delay)
      let r := extractRecords cfg msg_mclock (i + 1) la rest
      (r.1, (ptime, la) :: r.2.1, r.2.2)

/-- One iteration of the message loop, lines 350-381. -/
def extractMsg (cfg : AngleConfig) (st : Nat × Int) (m : RawMsg) :
    (Nat × Int) × List (ℚ × Int) × Nat :=
  let seq := unwrapSeq st.1 m.sequence
  let msg_mclock := cfg.start_clock + seq * 16 * cfg.sample_ticks
  let r := extractRecords cfg msg_mclock 0 st.2 m.data
  ((seq, r.1), r.2.1, r.2.2)

/-- `_extract_samples` (lines 331-385): fold the message loop over the raw
message batch, threading `(last_sequence, last_angle)` and concatenating
samples and error counts in arrival order. -/
def extract_samples (cfg : AngleConfig) (st : Nat × Int) :
    List RawMsg → (Nat × Int) × List (ℚ × Int) × Nat
  | [] => (st, [], 0)
  | m :: rest =>
    let r1 := extractMsg cfg st m
    let r2 := extract_samples cfg r1.1 rest
    (r2.1, r1.2.1 ++ r2.2.1, r1.2.2 + r2.2.2)

/-- The unwrapped sequence value after each message of a stream. -/
def seqTrace (last_sequence : Nat) : List (Fin 65536) → List Nat
  | [] => []
  | m :: rest =>
    let s := unwrapSeq last_sequence m
    s :: seqTrace s rest

/-- A message whose payload is 16 uniform valid records (48 bytes). -/
def uniformMsg (s : Fin 65536) : RawMsg :=
  { sequence := s, data := List.replicate 48 0 }

/-- Generic capture configuration used for concrete runs. -/
def cfg0 : AngleConfig :=
  { static_delay := 0, sample_ticks := 0, start_clock := 0, time_shift := 0,
    clock_to_print_time := fun c => c, is_tle5012b := false,
    last_chip_mcu_clock := 0, chip_freq := 0, last_chip_clock := 0 }

theorem unwrapSeq_step (ls : Nat) (m : Fin 65536) :
    ls ≤ unwrapSeq ls m ∧
    unwrapSeq ls m = ls + (m.val + 65536 - ls % 65536) % 65536 := by
  have hm := m.isLt
  rw [unwrapSeq]
  split <;> omega

/-- C5: for every stream of raw messages processed in arrival order, the
unwrapped sequence is non-decreasing, and each step adds exactly the 16-bit
wrap delta — the representative of `msg.sequence - last_sequence (mod 2^16)`
in `[0, 2^16)`; in particular three 16-record messages with sequences
`0xFFFE, 0xFFFF, 0x0000` unwrap to `0xFFFE, 0xFFFF, 0x10000`. -/
theorem seq_unwrap_monotone :
    (∀ (ls : Nat) (m : Fin 65536),
      ls ≤ unwrapSeq ls m ∧
      unwrapSeq ls m = ls + (m.val + 65536 - ls % 65536) % 65536) ∧
    (∀ (ls : Nat) (msgs : List (Fin 65536)),
      List.Chain' (fun a b => a ≤ b) (ls :: seqTrace ls msgs)) ∧
    seqTrace 0 [0xfffe, 0xffff, 0] = [0xfffe, 0xffff, 0x10000] ∧
    (extract_samples cfg0 (0, 0)
      [uniformMsg 0xfffe, uniformMsg 0xffff, uniformMsg 0]).1.1 = 0x10000 := by
  have hchain : ∀ (msgs : List (Fin 65536)) (ls : Nat),
      List.Chain' (fun a b => a ≤ b) (ls :: seqTrace ls msgs) := by
    intro msgs
    induction msgs with
    | nil => intro ls; simp [seqTrace]
    | cons m rest ih =>
      intro ls
      rw [seqTrace]
      exact List.Chain'.cons (unwrapSeq_step ls m).1 (ih (unwrapSeq ls m))
  exact ⟨unwrapSeq_step, fun ls msgs => hchain msgs ls, by decide, by decide⟩

/-- C4 (amended): for each decoded record with valid tcode, the step taken
by the unwrapped angle from the previous unwrapped value is congruent to
`raw_angle - last_angle (mod 2^16)` and is the unique such representative in
`[-0x7FFF, 0x8000]` — at the exact half-turn boundary the source picks
`+0x8000`, not `-0x8000` — so `|delta| ≤ 0x8000`, and the unwrapped angle
stays congruent to the raw angle mod `2^16` (hence the previous unwrapped
value stands in for the previous record's raw angle in the congruence). -/
theorem angle_unwrap_minimal (last_angle : Int) (raw_angle : Nat)
    (hraw : raw_angle < 65536) :
    (-32767 ≤ unwrapAngle last_angle raw_angle - last_angle ∧
      unwrapAngle last_angle raw_angle - last_angle ≤ 32768) ∧
    (unwrapAngle last_angle raw_angle - last_angle) % 65536 =
      ((raw_angle : Int) - last_angle) % 65536 ∧
    unwrapAngle last_angle raw_angle % 65536 = (raw_angle : Int) % 65536 := by
  rw [unwrapAngle]
  split <;> omega

/-- Witness for C4's amended statement. -/
theorem angle_unwrap_minimal_witness :
    (-32767 ≤ unwrapAngle 0 32768 - 0 ∧ unwrapAngle 0 32768 - 0 ≤ 32768) ∧
    (unwrapAngle 0 32768 - 0) % 65536 = ((32768 : Int) - 0) % 65536 ∧
    unwrapAngle 0 32768 % 65536 = (32768 : Int) % 65536 :=
  angle_unwrap_minimal 0 32768 (by decide)

/-- C4: counterexample.  Decoding two consecutive valid records with raw
angles `0x0000` then `0x8000` (a message `[0, 0x00, 0x00, 0, 0x00, 0x80]`)
yields unwrapped angles `0` then `+0x8000`: the step is `+32768`, which is
not the representative of `0x8000 - 0x0000 (mod 2^16)` in
`[-0x8000, 0x7FFF]` (that representative is `-32768`). -/
theorem angle_unwrap_boundary_cex :
    ((extract_samples cfg0 (0, 0)
        [{ sequence := 0, data := [0, 0x00, 0x00, 0, 0x00, 0x80] }]).2.1.map
      Prod.snd) = [0, 32768] ∧
    ¬(-32768 ≤ (32768 : Int) - 0 ∧ (32768 : Int) - 0 ≤ 32767) := by
  exact ⟨by decide, by decide⟩

/-- Capture configuration of scenario S1: `start_clock = 1000000`,
`sample_ticks = 16000`, `time_shift = 3`,
`clock_to_print_time c = c / 1e7`, `static_delay = 0.0001`, as5047d mode. -/
def cfgS1 : AngleConfig :=
  { static_delay := 1/10000, sample_ticks := 16000, start_clock := 1000000,
    time_shift := 3, clock_to_print_time := fun c => c / 10000000,
    is_tle5012b := false,
    last_chip_mcu_clock := 0, chip_freq := 0, last_chip_clock := 0 }

/-- C6: decoding the single message `sequence=0`, `data=[0x00,0x34,0x12]`
in as5047d mode with the S1 configuration and initial state
`(last_sequence, last_angle) = (0, 0)` yields exactly one sample
`(round(0.100000 - 0.0001, 6), 0x1234)` and an error count of 0. -/
theorem s1_decode_as5047d :
    (extract_samples cfgS1 (0, 0) [{ sequence := 0, data := [0x00, 0x34, 0x12] }]).2.1 =
      [(pyRound6 ((1 : ℚ)/10 - 1/10000), 0x1234)] ∧
    (extract_samples cfgS1 (0, 0) [{ sequence := 0, data := [0x00, 0x34, 0x12] }]).2.2 = 0 := by
  constructor
  · show [(pyRound6 (cfgS1.clock_to_print_time (recordSclock cfgS1 1000000 0) -
        cfgS1.static_delay), unwrapAngle 0 (0x34 + 256 * 0x12))] = _
    have h1 : cfgS1.clock_to_print_time (recordSclock cfgS1 1000000 0) -
        cfgS1.static_delay = (1 : ℚ)/10 - 1/10000 := by
      norm_num [cfgS1, recordSclock]
    rw [h1]
    norm_num [unwrapAngle]
  · decide

/-!
## `Angle._tle5012b_crc` / `Angle._tle5012b_query` (angle.py lines 395-415)

Python keeps `crc` as an unbounded int across the shifts (`crc = (crc << 1)
^ 0x1d` is not masked), so the accumulator is a `Nat`; the final
`(~crc) & 0xff` on the non-negative accumulator is `(-crc - 1) mod 256`.
The SPI exchange of each retry attempt (either `spi_angle_transfer` or a
plain `spi_transfer`, chosen by bit 2 of the opcode — both returning a
response byte string) is external; the model receives the per-attempt
responses as a function `responses : Nat → List Nat`.  `resp[2:-2]` is
`(resp.drop 2).dropLast.dropLast` and `resp[-1]` is `resp.getLastD 0`. -/

/-- One shift-and-conditionally-xor round of the CRC inner loop
(lines 399-403). -/
def crc_byte_step (crc : Nat) : Nat :=
  if crc &&& 0x80 ≠ 0 then (crc <<< 1) ^^^ 0x1d else crc <<< 1

/-- One data byte of the CRC loop (lines 397-403): xor in the byte, then
eight shift rounds. -/
def crc_update (crc d : Nat) : Nat := crc_byte_step^[8] (crc ^^^ d)

/-- `_tle5012b_crc` (lines 395-404): init `0xff`, polynomial `0x1d`, final
bitwise complement of the low byte. -/
def tle5012b_crc (data : List Nat) : Nat :=
  let crc := data.foldl crc_update 0xff
  ((-(crc : Int) - 1) % 256).toNat

/-- The acceptance check of lines 412-413:
`crc == resp[-1]` for `crc = _tle5012b_crc(bytearray(msg[:2]) + resp[2:-2])`. -/
def tle5012b_check (msg resp : List Nat) : Bool :=
  tle5012b_crc (msg.take 2 ++ (resp.drop 2).dropLast.dropLast) == resp.getLastD 0

/-- The retry loop of lines 406-414 over the successive exchange results. -/
def tle5012b_query_loop (msg : List Nat) : List (List Nat) → Option (List Nat)
  | [] => none
  | r :: rest => if tle5012b_check msg r then some r else tle5012b_query_loop msg rest

/-- `_tle5012b_query` (lines 405-415): up to 5 attempts; `none` models the
fatal "Unable to query tle5012b chip" command error of line 415. -/
def tle5012b_query (msg : List Nat) (responses : Nat → List Nat) : Option (List Nat) :=
  tle5012b_query_loop msg ((List.range 5).map responses)

/-- The STAT-read request of line 442 and a response it accepts whose
safety-word byte `resp[-2]` is excluded from the CRC input. -/
def msgSTAT : List Nat := [0x80, 0x01, 0, 0, 0, 0]

def respSTAT : List Nat := [0, 0, 0, 0, 0, tle5012b_crc [0x80, 0x01, 0, 0]]

set_option maxRecDepth 10000 in
/-- C2: counterexample.  The query routine retains `respSTAT` (its CRC over
`msg[:2] + resp[2:-2]` matches the last byte), yet the CRC over
`msg[:2] + resp[2:-1]` — the slice the claim states, which would include
the first safety-word byte — differs from the last byte. -/
theorem tle5012b_crc_slice_cex :
    tle5012b_query msgSTAT (fun i => respSTAT) = some respSTAT ∧
    tle5012b_crc (msgSTAT.take 2 ++ (respSTAT.drop 2).dropLast) ≠ respSTAT.getLastD 0 := by
  exact ⟨by decide, by decide⟩

/-- C2 (amended): every SPI exchange result the tle5012b query routine
retains satisfies the CRC check (polynomial `0x1D`, init `0xFF`, final
bitwise-NOT) over the first two request bytes concatenated with the
response bytes from index 2 up to but excluding the last *two* bytes
(`resp[2:-2]`), with the CRC equal to the last response byte; and if five
consecutive exchanges all fail this check, the routine raises the fatal
command error (modelled as `none`). -/
theorem tle5012b_query_crc (msg : List Nat) (responses : Nat → List Nat) :
    (∀ r, tle5012b_query msg responses = some r →
      tle5012b_crc (msg.take 2 ++ (r.drop 2).dropLast.dropLast) = r.getLastD 0) ∧
    ((∀ i, i < 5 → tle5012b_check msg (responses i) = false) →
      tle5012b_query msg responses = none) := by
  have haccept : ∀ (rs : List (List Nat)) (r : List Nat),
      tle5012b_query_loop msg rs = some r →
      tle5012b_crc (msg.take 2 ++ (r.drop 2).dropLast.dropLast) = r.getLastD 0 := by
    intro rs
    induction rs with
    | nil => intro r h; exact absurd h (by simp [tle5012b_query_loop])
    | cons r0 rest ih =>
      intro r h
      rw [tle5012b_query_loop] at h
      by_cases hc : tle5012b_check msg r0
      · rw [if_pos hc] at h
        obtain rfl : r0 = r := Option.some_injective _ h
        rw [tle5012b_check] at hc
        exact eq_of_beq hc
      · rw [if_neg hc] at h
        exact ih r h
  have hfail : ∀ rs : List (List Nat),
      (∀ r ∈ rs, tle5012b_check msg r = false) →
      tle5012b_query_loop msg rs = none := by
    intro rs
    induction rs with
    | nil => intro _; rfl
    | cons r0 rest ih =>
      intro h
      rw [tle5012b_query_loop, if_neg]
      · exact ih fun r hr => h r (List.mem_cons_of_mem r0 hr)
      · rw [h r0 (List.mem_cons_self r0 rest)]
        exact Bool.false_ne_true
  refine ⟨fun r h => haccept _ r h, fun h => hfail _ ?_⟩
  intro r hr
  rw [List.mem_map] at hr
  obtain ⟨i, hi, rfl⟩ := hr
  exact h i (List.mem_range.mp hi)

set_option maxRecDepth 10000 in
/-- Witness for C2's amended statement: the accepted `respSTAT` exchange. -/
theorem tle5012b_query_crc_witness :
    tle5012b_crc (msgSTAT.take 2 ++ ((respSTAT.drop 2).dropLast.dropLast)) =
      respSTAT.getLastD 0 :=
  (tle5012b_query_crc msgSTAT (fun i => respSTAT)).1 respSTAT (by decide)
